import Mathlib

/-!
Shallow embedding of the portfolio chat proxy (src/main.py) and proofs of
its specified properties.

Text is modelled as `List Char` (Python strings are sequences of code
points).  Fallible Python code is modelled with `Except`; the JSON values
the upstream API may return are modelled by an inductive `Json` type, and
Python subscript/attribute errors are modelled explicitly so that the
error-mapping code of the endpoint can be embedded faithfully.
-/

/-- Whitespace characters removed by the Python str.strip method
(ASCII portion; the claims only involve these characters). -/
def pySpace (c : Char) : Bool :=
  c == ' ' || c == '\t' || c == '\n' || c == '\r' || c == '\x0b' || c == '\x0c'

/-- Python str.strip: drop leading and trailing whitespace. -/
def pyStrip (s : List Char) : List Char :=
  ((s.dropWhile pySpace).reverse.dropWhile pySpace).reverse

/-!
The regex substitution re.sub applied in the source:

    def _strip_html(text: str) -> str:
        return re.sub(r"<[^>]+>", "", text)

The pattern matches an opening angle bracket, one or more characters that
are not a closing angle bracket, then a closing angle bracket.  At a given
position the pattern matches exactly when the first closing bracket
strictly after the opening one is at distance at least two; the match then
extends to that first closing bracket.  re.sub scans left to right,
removing non-overlapping leftmost matches.
-/

/-- Suffix of the text that follows the first closing angle bracket, if
one occurs. -/
def afterGt : List Char → Option (List Char)
  | [] => none
  | c :: cs => if c = '>' then some cs else afterGt cs

/-- Attempt to match the tag pattern minus its opening bracket at the head
of the text: at least one character other than a closing bracket, then a
closing bracket.  Returns the remaining suffix on success. -/
def findTag : List Char → Option (List Char)
  | [] => none
  | c :: cs => if c = '>' then none else afterGt cs

theorem afterGt_length : ∀ {l r : List Char}, afterGt l = some r → r.length < l.length := by
  intro l
  induction l with
  | nil => intro r h; simp [afterGt] at h
  | cons c cs ih =>
    intro r h
    by_cases hc : c = '>'
    · simp [afterGt, hc] at h
      simp [← h, List.length_cons]
    · simp [afterGt, hc] at h
      exact Nat.lt_trans (ih h) (Nat.lt_succ_self _)

theorem findTag_length {l r : List Char} (h : findTag l = some r) : r.length < l.length := by
  cases l with
  | nil => simp [findTag] at h
  | cons c cs =>
    by_cases hc : c = '>'
    · simp [findTag, hc] at h
    · simp [findTag, hc] at h
      exact Nat.lt_trans (afterGt_length h) (Nat.lt_succ_self _)

/-- Embedding of the source function _strip_html: remove every
non-overlapping leftmost match of the tag pattern. -/
def strip_html : List Char → List Char
  | [] => []
  | c :: cs =>
    if c = '<' then
      match h : findTag cs with
      | some rest => strip_html rest
      | none => c :: strip_html cs
    else c :: strip_html cs
termination_by l => l.length
decreasing_by
  · exact Nat.lt_trans (findTag_length h) (Nat.lt_succ_self _)
  · exact Nat.lt_succ_self _
  · exact Nat.lt_succ_self _

/-- Characters of the suffix returned by afterGt come from the input. -/
theorem afterGt_mem : ∀ {l r : List Char}, afterGt l = some r → ∀ {x : Char}, x ∈ r → x ∈ l := by
  intro l
  induction l with
  | nil => intro r h; simp [afterGt] at h
  | cons c cs ih =>
    intro r h x hx
    by_cases hc : c = '>'
    · simp [afterGt, hc] at h
      exact List.mem_cons_of_mem _ (h ▸ hx)
    · simp [afterGt, hc] at h
      exact List.mem_cons_of_mem _ (ih h hx)

theorem findTag_mem {l r : List Char} (h : findTag l = some r) {x : Char} (hx : x ∈ r) : x ∈ l := by
  cases l with
  | nil => simp [findTag] at h
  | cons c cs =>
    by_cases hc : c = '>'
    · simp [findTag, hc] at h
    · simp [findTag, hc] at h
      exact List.mem_cons_of_mem _ (afterGt_mem h hx)


theorem strip_html_nil : strip_html [] = [] := by simp [strip_html]

theorem strip_html_cons_some {cs rest : List Char} (hft : findTag cs = some rest) :
    strip_html ('<' :: cs) = strip_html rest := by
  simp only [strip_html]
  split
  · split
    · rename_i x hx
      rw [hft] at hx
      injection hx with hx
      rw [hx]
    · rename_i hx
      rw [hft] at hx
      cases hx
  · rename_i hx
    exact absurd trivial hx

theorem strip_html_cons_none {cs : List Char} (hft : findTag cs = none) :
    strip_html ('<' :: cs) = '<' :: strip_html cs := by
  simp only [strip_html]
  split
  · split
    · rename_i x hx
      rw [hft] at hx
      cases hx
    · rfl
  · rename_i hx
    exact absurd trivial hx

theorem strip_html_cons_ne {c : Char} {cs : List Char} (hc : c ≠ '<') :
    strip_html (c :: cs) = c :: strip_html cs := by
  simp [strip_html, hc]

/-- Every character of the stripped text is a character of the input. -/
theorem strip_html_mem : ∀ {l : List Char} {x : Char}, x ∈ strip_html l → x ∈ l := by
  intro l
  induction l using strip_html.induct with
  | case1 => intro x hx; rw [strip_html_nil] at hx; cases hx
  | case2 cs rest hft ih =>
    intro x hx
    rw [strip_html_cons_some hft] at hx
    exact List.mem_cons_of_mem _ (findTag_mem hft (ih hx))
  | case3 cs hft ih =>
    intro x hx
    rw [strip_html_cons_none hft] at hx
    rcases List.mem_cons.mp hx with hx | hx
    · exact hx ▸ List.mem_cons_self _ _
    · exact List.mem_cons_of_mem _ (ih hx)
  | case4 c cs hc ih =>
    intro x hx
    rw [strip_html_cons_ne hc] at hx
    rcases List.mem_cons.mp hx with hx | hx
    · exact hx ▸ List.mem_cons_self _ _
    · exact List.mem_cons_of_mem _ (ih hx)
theorem afterGt_eq_none {l : List Char} (h : '>' ∉ l) : afterGt l = none := by
  induction l with
  | nil => rfl
  | cons c cs ih =>
    have hc : c ≠ '>' := fun hh => h (hh ▸ List.mem_cons_self _ _)
    simp [afterGt, hc]
    exact ih (fun hm => h (List.mem_cons_of_mem _ hm))

theorem afterGt_none_not_mem : ∀ {l : List Char}, afterGt l = none → '>' ∉ l := by
  intro l
  induction l with
  | nil => intro _ hm; simp at hm
  | cons c cs ih =>
    intro h hm
    by_cases hc : c = '>'
    · simp [afterGt, hc] at h
    · simp [afterGt, hc] at h
      rcases List.mem_cons.mp hm with hm | hm
      · exact hc hm.symm
      · exact ih h hm

theorem findTag_eq_none {l : List Char} (h : '>' ∉ l) : findTag l = none := by
  cases l with
  | nil => rfl
  | cons c cs =>
    by_cases hc : c = '>'
    · simp [findTag, hc]
    · simp [findTag, hc]
      exact afterGt_eq_none (fun hm => h (List.mem_cons_of_mem _ hm))


/-- Absence of any tag-pattern match at every position of the text. -/
def noTagB : List Char → Bool
  | [] => true
  | c :: cs => (if c = '<' then (findTag cs).isNone else true) && noTagB cs

/-- Text with no match anywhere is left unchanged by stripping. -/
theorem strip_html_of_noTagB : ∀ {l : List Char}, noTagB l = true → strip_html l = l := by
  intro l
  induction l using strip_html.induct with
  | case1 => intro _; exact strip_html_nil
  | case2 cs rest hft ih =>
    intro hn
    simp [noTagB, hft] at hn
  | case3 cs hft ih =>
    intro hn
    simp only [noTagB, Bool.and_eq_true] at hn
    rw [strip_html_cons_none hft, ih hn.2]
  | case4 c cs hc ih =>
    intro hn
    simp only [noTagB, Bool.and_eq_true] at hn
    rw [strip_html_cons_ne hc, ih hn.2]

/-- Stripped text has no remaining match at any position. -/
theorem noTagB_strip_html : ∀ (l : List Char), noTagB (strip_html l) = true := by
  intro l
  induction l using strip_html.induct with
  | case1 => rw [strip_html_nil]; rfl
  | case2 cs rest hft ih =>
    rw [strip_html_cons_some hft]
    exact ih
  | case3 cs hft ih =>
    rw [strip_html_cons_none hft]
    have hnone : findTag (strip_html cs) = none := by
      cases cs with
      | nil => rw [strip_html_nil]; rfl
      | cons c2 cs2 =>
        by_cases hc2 : c2 = '>'
        · subst hc2
          rw [strip_html_cons_ne (by decide)]
          simp [findTag]
        · have hfx : afterGt cs2 = none := by
            simpa [findTag, hc2] using hft
          have hnm : '>' ∉ (c2 :: cs2) := by
            intro hm
            rcases List.mem_cons.mp hm with hm | hm
            · exact hc2 hm.symm
            · exact afterGt_none_not_mem hfx hm
          exact findTag_eq_none (fun hm => hnm (strip_html_mem hm))
    simp [noTagB, hnone, ih]
  | case4 c cs hc ih =>
    rw [strip_html_cons_ne hc]
    simp [noTagB, hc, ih]

/-- Claim C8: HTML stripping is idempotent: for every input text, applying
the strip function to its own output yields the same text. -/
theorem strip_html_idem (l : List Char) : strip_html (strip_html l) = strip_html l :=
  strip_html_of_noTagB (noTagB_strip_html l)


/-!
Context builder (src/main.py, build_context).  A project record is read
through dictionary lookups: name, slug, data.stack, data.projectUrls,
article.content.  Entries of a projectUrls group are arbitrary JSON
values; the code emits a line only for entries that are Python lists,
interpolating their first two elements (item[1] then item[0]) into the
line text, so an entry is modelled either as a non-list value or as the
list of the rendered texts of its elements.  Subscripting a list of fewer
than two elements raises IndexError, which is modelled as the error case
of Except.
-/

/-- Python str.join with the given separator. -/
def pyJoin (sep : List Char) : List (List Char) → List Char
  | [] => []
  | [x] => x
  | x :: y :: tl => x ++ sep ++ pyJoin sep (y :: tl)

/-- One entry of a projectUrls group: either a value that is not a Python
list (skipped by the isinstance check) or a list of element texts. -/
inductive UrlItem where
  | other
  | lst (xs : List (List Char))
deriving DecidableEq

/-- A project record with the fields build_context reads. -/
structure Project where
  name : List Char
  slug : List Char
  stack : List (List Char)
  projectUrls : List (List UrlItem)
  content : List Char
deriving DecidableEq

def projectLine (p : Project) : List Char := "Project: ".data ++ p.name

def slugLine (p : Project) : List Char := "Slug: ".data ++ p.slug

/-- Lines for the stack field: one comma-joined line when the list is
non-empty, nothing otherwise. -/
def stackLines (p : Project) : List (List Char) :=
  match p.stack with
  | [] => []
  | s :: ss => ["Stack: ".data ++ pyJoin ", ".data (s :: ss)]

def descriptionLine (p : Project) : List Char :=
  "Description: ".data ++ strip_html p.content

/-- URL lines of one projectUrls group.  A non-list entry is skipped; a
list entry is interpolated as URL: item[1] → item[0], and raises
IndexError when it has fewer than two elements. -/
def urlLinesGroup : List UrlItem → Except Unit (List (List Char))
  | [] => .ok []
  | UrlItem.other :: rest => urlLinesGroup rest
  | UrlItem.lst (a :: b :: _) :: rest => do
    let ls ← urlLinesGroup rest
    .ok (("URL: ".data ++ b ++ " → ".data ++ a) :: ls)
  | UrlItem.lst _ :: _ => .error ()

/-- URL lines of all projectUrls groups, in order. -/
def urlLinesAll : List (List UrlItem) → Except Unit (List (List Char))
  | [] => .ok []
  | g :: gs => do
    let a ← urlLinesGroup g
    let b ← urlLinesAll gs
    .ok (a ++ b)

/-- All lines emitted for one project, in emission order. -/
def projectLines (p : Project) : Except Unit (List (List Char)) := do
  let us ← urlLinesAll p.projectUrls
  .ok ([projectLine p, slugLine p] ++ stackLines p ++ us ++ [descriptionLine p, "---".data])

/-- The list of lines accumulated by build_context over the dataset. -/
def buildContextLines : List Project → Except Unit (List (List Char))
  | [] => .ok []
  | p :: ps => do
    let a ← projectLines p
    let b ← buildContextLines ps
    .ok (a ++ b)

/-- Embedding of the source function build_context: the accumulated lines
joined with newline characters. -/
def build_context (ps : List Project) : Except Unit (List Char) :=
  (buildContextLines ps).map (pyJoin ['\n'])

/-- Division of text into lines at newline characters, as str.split. -/
def splitNl : List Char → List (List Char)
  | [] => [[]]
  | c :: cs =>
    if c = '\n' then [] :: splitNl cs
    else
      match splitNl cs with
      | [] => [[c]]
      | l :: ls => (c :: l) :: ls

/-- A line predicate: the line starts with the text Project: . -/
def isProjLine (l : List Char) : Bool := "Project:".data.isPrefixOf l

theorem splitNl_no_nl {l : List Char} (h : '\n' ∉ l) : splitNl l = [l] := by
  induction l with
  | nil => rfl
  | cons c cs ih =>
    have hc : c ≠ '\n' := fun hh => h (hh ▸ List.mem_cons_self _ _)
    have hcs : '\n' ∉ cs := fun hm => h (List.mem_cons_of_mem _ hm)
    simp [splitNl, hc, ih hcs]

theorem splitNl_append {x r : List Char} (h : '\n' ∉ x) :
    splitNl (x ++ '\n' :: r) = x :: splitNl r := by
  induction x with
  | nil => simp [splitNl]
  | cons c cs ih =>
    have hc : c ≠ '\n' := fun hh => h (hh ▸ List.mem_cons_self _ _)
    have hcs : '\n' ∉ cs := fun hm => h (List.mem_cons_of_mem _ hm)
    simp only [List.cons_append, splitNl, if_neg hc, List.append_eq, ih hcs]

/-- Joining lines that contain no newline and splitting again recovers
the lines. -/
theorem splitNl_pyJoin : ∀ {ls : List (List Char)}, ls ≠ [] →
    (∀ l ∈ ls, '\n' ∉ l) → splitNl (pyJoin ['\n'] ls) = ls := by
  intro ls
  induction ls with
  | nil => intro h; exact absurd rfl h
  | cons x tl ih =>
    intro _ hnl
    cases tl with
    | nil => exact splitNl_no_nl (hnl x (List.mem_cons_self _ _))
    | cons y tl2 =>
      have hx : '\n' ∉ x := hnl x (List.mem_cons_self _ _)
      have hj : pyJoin ['\n'] (x :: y :: tl2) =
          x ++ '\n' :: pyJoin ['\n'] (y :: tl2) := by
        simp [pyJoin]
      rw [hj, splitNl_append hx]
      rw [ih (by simp) (fun l hl => hnl l (List.mem_cons_of_mem _ hl))]

/-- An entry that is a Python list with fewer than two elements; its
subscripting raises IndexError. -/
def shortList : UrlItem → Bool
  | UrlItem.other => false
  | UrlItem.lst xs => decide (xs.length < 2)

/-- The URL line an entry contributes, when it contributes one. -/
def urlLineOpt : UrlItem → Option (List Char)
  | UrlItem.lst (a :: b :: _) => some ("URL: ".data ++ b ++ " → ".data ++ a)
  | _ => none

/-- Characterization of the URL lines of one group: the group fails
exactly when it holds a list entry of fewer than two elements, and
otherwise contributes one line per list entry with at least two
elements, in order. -/
theorem urlLinesGroup_eq (g : List UrlItem) :
    urlLinesGroup g =
      if g.any shortList then .error () else .ok (g.filterMap urlLineOpt) := by
  induction g with
  | nil => rfl
  | cons i rest ih =>
    cases i with
    | other =>
      simp only [urlLinesGroup, ih, List.any_cons, List.filterMap_cons, shortList,
        Bool.false_or, urlLineOpt]
    | lst xs =>
      match xs with
      | [] => simp [urlLinesGroup, shortList]
      | [a] => simp [urlLinesGroup, shortList]
      | a :: b :: t =>
        have hlen : ¬ ((a :: b :: t).length < 2) := by simp
        simp only [urlLinesGroup, ih, List.any_cons, shortList, List.filterMap_cons,
          urlLineOpt, decide_eq_true_eq, if_neg hlen, decide_eq_false hlen, Bool.false_or]
        by_cases hany : rest.any shortList = true
        · simp [hany, Bind.bind, Except.bind]
        · simp only [Bool.not_eq_true] at hany
          simp [hany, Bind.bind, Except.bind]

theorem urlLinesAll_cons_ok {g : List UrlItem} {gs : List (List UrlItem)}
    {us : List (List Char)} (h : urlLinesAll (g :: gs) = .ok us) :
    ∃ a b, urlLinesGroup g = .ok a ∧ urlLinesAll gs = .ok b ∧ us = a ++ b := by
  cases ha : urlLinesGroup g with
  | error e => simp [urlLinesAll, ha, Bind.bind, Except.bind] at h
  | ok a =>
    cases hb : urlLinesAll gs with
    | error e => simp [urlLinesAll, ha, hb, Bind.bind, Except.bind] at h
    | ok b =>
      refine ⟨a, b, rfl, rfl, ?_⟩
      simp only [urlLinesAll, ha, hb, Bind.bind, Except.bind] at h
      exact (Except.ok.inj h).symm

/-- Every line produced for a projectUrls group starts with URL: . -/
theorem urlLinesGroup_mem {g : List UrlItem} {us : List (List Char)}
    (h : urlLinesGroup g = .ok us) {l : List Char} (hl : l ∈ us) :
    ∃ t, l = "URL: ".data ++ t := by
  rw [urlLinesGroup_eq] at h
  by_cases hany : g.any shortList = true
  · rw [if_pos hany] at h; cases h
  · simp only [Bool.not_eq_true] at hany
    rw [if_neg (by simp [hany])] at h
    rcases Except.ok.inj h with rfl
    rcases List.mem_filterMap.mp hl with ⟨i, _, hi⟩
    cases i with
    | other => cases hi
    | lst xs =>
      match xs, hi with
      | a :: b :: t, hi =>
        exact ⟨b ++ " → ".data ++ a, by
          have := Option.some.inj hi
          simp [← this]⟩

theorem urlLinesAll_mem : ∀ {gs : List (List UrlItem)} {us : List (List Char)},
    urlLinesAll gs = .ok us → ∀ {l : List Char}, l ∈ us → ∃ t, l = "URL: ".data ++ t := by
  intro gs
  induction gs with
  | nil =>
    intro us h l hl
    cases Except.ok.inj h
    cases hl
  | cons g gs ih =>
    intro us h l hl
    rcases urlLinesAll_cons_ok h with ⟨a, b, ha, hb, rfl⟩
    rcases List.mem_append.mp hl with hl | hl
    · exact urlLinesGroup_mem ha hl
    · exact ih hb hl

theorem projectLines_ok {p : Project} {ls : List (List Char)}
    (h : projectLines p = .ok ls) :
    ∃ us, urlLinesAll p.projectUrls = .ok us ∧
      ls = [projectLine p, slugLine p] ++ stackLines p ++ us ++
        [descriptionLine p, "---".data] := by
  cases hus : urlLinesAll p.projectUrls with
  | error e => simp [projectLines, hus, Bind.bind, Except.bind] at h
  | ok us =>
    refine ⟨us, rfl, ?_⟩
    simp only [projectLines, hus, Bind.bind, Except.bind] at h
    exact (Except.ok.inj h).symm

/-- Among the lines of one project exactly the first is a Project: line. -/
theorem projectLines_filter {p : Project} {ls : List (List Char)}
    (h : projectLines p = .ok ls) : ls.filter isProjLine = [projectLine p] := by
  rcases projectLines_ok h with ⟨us, hus, rfl⟩
  have h1 : isProjLine (projectLine p) = true := rfl
  have h2 : isProjLine (slugLine p) = false := rfl
  have h3 : (stackLines p).filter isProjLine = [] := by
    rw [List.filter_eq_nil_iff]
    intro a ha
    unfold stackLines at ha
    cases hst : p.stack with
    | nil => rw [hst] at ha; cases ha
    | cons s ss =>
      rw [hst] at ha
      rcases List.mem_singleton.mp ha with rfl
      intro hcontra
      rw [show isProjLine ("Stack: ".data ++ pyJoin ", ".data (s :: ss)) = false from rfl]
        at hcontra
      exact Bool.false_ne_true hcontra
  have h4 : us.filter isProjLine = [] := by
    rw [List.filter_eq_nil_iff]
    intro a ha
    rcases urlLinesAll_mem hus ha with ⟨t, rfl⟩
    intro hcontra
    rw [show isProjLine ("URL: ".data ++ t) = false from rfl] at hcontra
    exact Bool.false_ne_true hcontra
  have h5 : isProjLine (descriptionLine p) = false := rfl
  have h6 : isProjLine "---".data = false := rfl
  simp [List.filter_append, List.filter_cons, h1, h2, h3, h4, h5, h6]

theorem buildContextLines_cons_ok {p : Project} {ps : List Project} {ls : List (List Char)}
    (h : buildContextLines (p :: ps) = .ok ls) :
    ∃ a b, projectLines p = .ok a ∧ buildContextLines ps = .ok b ∧ ls = a ++ b := by
  cases ha : projectLines p with
  | error e => simp [buildContextLines, ha, Bind.bind, Except.bind] at h
  | ok a =>
    cases hb : buildContextLines ps with
    | error e => simp [buildContextLines, ha, hb, Bind.bind, Except.bind] at h
    | ok b =>
      refine ⟨a, b, rfl, rfl, ?_⟩
      simp only [buildContextLines, ha, hb, Bind.bind, Except.bind] at h
      exact (Except.ok.inj h).symm

/-- Filtering the accumulated context lines keeps exactly one Project:
line per project, in dataset order. -/
theorem buildContextLines_filter : ∀ {ps : List Project} {ls : List (List Char)},
    buildContextLines ps = .ok ls →
    ls.filter isProjLine = ps.map projectLine := by
  intro ps
  induction ps with
  | nil =>
    intro ls h
    cases Except.ok.inj h
    rfl
  | cons p ps ih =>
    intro ls h
    rcases buildContextLines_cons_ok h with ⟨a, b, ha, hb, rfl⟩
    rw [List.filter_append, projectLines_filter ha, ih hb, List.map_cons]
    rfl

/-- Entry texts contain no newline character. -/
def urlItemNoNlB : UrlItem → Bool
  | UrlItem.other => true
  | UrlItem.lst xs => xs.all (fun s => !s.contains '\n')

/-- All field texts of a project contain no newline character. -/
def projectNoNlB (p : Project) : Bool :=
  !p.name.contains '\n' && !p.slug.contains '\n' &&
  p.stack.all (fun s => !s.contains '\n') &&
  p.projectUrls.all (fun g => g.all urlItemNoNlB) &&
  !p.content.contains '\n'

theorem not_contains_iff {l : List Char} {x : Char} : (!l.contains x) = true ↔ x ∉ l := by
  simp

theorem pyJoin_not_mem {sep : List Char} {x : Char} (hsep : x ∉ sep) :
    ∀ {ls : List (List Char)}, (∀ l ∈ ls, x ∉ l) → x ∉ pyJoin sep ls := by
  intro ls
  induction ls with
  | nil => intro _ hm; cases hm
  | cons a tl ih =>
    intro h
    cases tl with
    | nil => exact h a (List.mem_cons_self _ _)
    | cons b tl2 =>
      intro hm
      rw [show pyJoin sep (a :: b :: tl2) = a ++ sep ++ pyJoin sep (b :: tl2) from rfl] at hm
      rcases List.mem_append.mp hm with hm | hm
      · rcases List.mem_append.mp hm with hm | hm
        · exact h a (List.mem_cons_self _ _) hm
        · exact hsep hm
      · exact ih (fun l hl => h l (List.mem_cons_of_mem _ hl)) hm

theorem urlLinesGroup_no_nl {g : List UrlItem} {us : List (List Char)}
    (h : urlLinesGroup g = .ok us) (hg : ∀ i ∈ g, urlItemNoNlB i = true) :
    ∀ l ∈ us, '\n' ∉ l := by
  intro l hl
  rw [urlLinesGroup_eq] at h
  by_cases hany : g.any shortList = true
  · rw [if_pos hany] at h; cases h
  · simp only [Bool.not_eq_true] at hany
    rw [if_neg (by simp [hany])] at h
    rcases Except.ok.inj h with rfl
    rcases List.mem_filterMap.mp hl with ⟨i, hi, hline⟩
    cases i with
    | other => cases hline
    | lst xs =>
      match xs, hline with
      | a :: b :: t, hline =>
        have hitem := hg _ hi
        simp only [urlItemNoNlB, List.all_eq_true] at hitem
        have ha : '\n' ∉ a :=
          not_contains_iff.mp (hitem a (List.mem_cons_self _ _))
        have hb : '\n' ∉ b :=
          not_contains_iff.mp (hitem b (List.mem_cons_of_mem _ (List.mem_cons_self _ _)))
        rcases Option.some.inj hline with rfl
        intro hm
        rcases List.mem_append.mp hm with hm | hm
        · rcases List.mem_append.mp hm with hm | hm
          · rcases List.mem_append.mp hm with hm | hm
            · exact absurd hm (by decide)
            · exact hb hm
          · exact absurd hm (by decide)
        · exact ha hm

theorem urlLinesAll_no_nl : ∀ {gs : List (List UrlItem)} {us : List (List Char)},
    urlLinesAll gs = .ok us → (∀ g ∈ gs, ∀ i ∈ g, urlItemNoNlB i = true) →
    ∀ l ∈ us, '\n' ∉ l := by
  intro gs
  induction gs with
  | nil =>
    intro us h _ l hl
    cases Except.ok.inj h
    cases hl
  | cons g gs ih =>
    intro us h hg l hl
    rcases urlLinesAll_cons_ok h with ⟨a, b, ha, hb, rfl⟩
    rcases List.mem_append.mp hl with hl | hl
    · exact urlLinesGroup_no_nl ha (hg g (List.mem_cons_self _ _)) l hl
    · exact ih hb (fun g2 hg2 => hg g2 (List.mem_cons_of_mem _ hg2)) l hl

theorem projectLines_no_nl {p : Project} {ls : List (List Char)}
    (h : projectLines p = .ok ls) (hp : projectNoNlB p = true) :
    ∀ l ∈ ls, '\n' ∉ l := by
  simp only [projectNoNlB, Bool.and_eq_true] at hp
  obtain ⟨⟨⟨⟨hname, hslug⟩, hstack⟩, hurls⟩, hcontent⟩ := hp
  rcases projectLines_ok h with ⟨us, hus, rfl⟩
  intro l hl
  simp only [List.append_assoc, List.cons_append, List.nil_append, List.mem_cons,
    List.mem_append] at hl
  rcases hl with rfl | hl
  · intro hm
    rcases List.mem_append.mp hm with hm | hm
    · exact absurd hm (by decide)
    · exact not_contains_iff.mp hname hm
  rcases hl with rfl | hl
  · intro hm
    rcases List.mem_append.mp hm with hm | hm
    · exact absurd hm (by decide)
    · exact not_contains_iff.mp hslug hm
  rcases hl with hl | hl
  · unfold stackLines at hl
    cases hst : p.stack with
    | nil => rw [hst] at hl; cases hl
    | cons s ss =>
      rw [hst] at hl
      rcases List.mem_singleton.mp hl with rfl
      intro hm
      rcases List.mem_append.mp hm with hm | hm
      · exact absurd hm (by decide)
      · have hall : ∀ l2 ∈ s :: ss, '\n' ∉ l2 := by
          intro l2 hl2
          rw [List.all_eq_true] at hstack
          exact not_contains_iff.mp (hstack l2 (hst ▸ hl2))
        exact pyJoin_not_mem (by decide) hall hm
  rcases hl with hl | hl
  · have hg : ∀ g ∈ p.projectUrls, ∀ i ∈ g, urlItemNoNlB i = true := by
      intro g hgmem i hi
      rw [List.all_eq_true] at hurls
      have := hurls g hgmem
      rw [List.all_eq_true] at this
      exact this i hi
    exact urlLinesAll_no_nl hus hg l hl
  rcases hl with rfl | hl
  · intro hm
    rcases List.mem_append.mp hm with hm | hm
    · exact absurd hm (by decide)
    · exact not_contains_iff.mp hcontent (strip_html_mem hm)
  rcases hl with rfl | hl
  · exact by decide
  · cases hl

theorem buildContextLines_no_nl : ∀ {ps : List Project} {ls : List (List Char)},
    buildContextLines ps = .ok ls → (∀ p ∈ ps, projectNoNlB p = true) →
    ∀ l ∈ ls, '\n' ∉ l := by
  intro ps
  induction ps with
  | nil =>
    intro ls h _ l hl
    cases Except.ok.inj h
    cases hl
  | cons p ps ih =>
    intro ls h hps l hl
    rcases buildContextLines_cons_ok h with ⟨a, b, ha, hb, rfl⟩
    rcases List.mem_append.mp hl with hl | hl
    · exact projectLines_no_nl ha (hps p (List.mem_cons_self _ _)) l hl
    · exact ih hb (fun q hq => hps q (List.mem_cons_of_mem _ hq)) l hl

theorem buildContextLines_ne_nil {p : Project} {ps : List Project} {ls : List (List Char)}
    (h : buildContextLines (p :: ps) = .ok ls) : ls ≠ [] := by
  rcases buildContextLines_cons_ok h with ⟨a, b, ha, _, rfl⟩
  rcases projectLines_ok ha with ⟨us, _, rfl⟩
  simp

/-!
Endpoint model (src/main.py, verify_api_key and chat).

The framework-mediated parts that the source configures but does not
implement are modelled from the spec: a request whose credential header
is absent is rejected with the forbidden signal (spec section 4.3:
mismatch or absence reject with a forbidden signal), a message failing
the pydantic validator yields the 400 validation-failure response (spec
section 6), and the rate limiter declared as 20/minute is a fixed-window
counter keyed by client address whose window is the current minute
(spec section 4.3 accepts standard fixed-window counting), consulted
when the decorated handler runs, after credential and body validation.
-/

/-- JSON values of the upstream response body. -/
inductive Json where
  | null
  | bool (b : Bool)
  | num (n : Int)
  | str (s : List Char)
  | arr (items : List Json)
  | obj (fields : List (List Char × Json))

/-- Python errors the extraction code can raise: KeyError and IndexError
are caught by the handler, every other error type is not. -/
inductive PyErr where
  | keyIdx
  | other
deriving DecidableEq

def jsonLookup (k : List Char) : List (List Char × Json) → Option Json
  | [] => none
  | (k2, v) :: rest => if k2 = k then some v else jsonLookup k rest

/-- Python subscripting with a string key: dictionary lookup raises
KeyError when the key is missing; subscripting any other value with a
string raises TypeError. -/
def getItemStr (j : Json) (k : List Char) : Except PyErr Json :=
  match j with
  | .obj fs =>
    match jsonLookup k fs with
    | some v => .ok v
    | none => .error .keyIdx
  | _ => .error .other

/-- Python subscripting with the integer 0: list and string indexing
raise IndexError when empty, dictionary lookup raises KeyError (the
parsed keys are strings, never the integer 0), other values raise
TypeError. -/
def getItemZero (j : Json) : Except PyErr Json :=
  match j with
  | .arr [] => .error .keyIdx
  | .arr (x :: _) => .ok x
  | .obj _ => .error .keyIdx
  | .str [] => .error .keyIdx
  | .str (c :: _) => .ok (.str [c])
  | _ => .error .other

/-- Embedding of response.json()["choices"][0]["message"]["content"].strip():
the strip call raises AttributeError when the content is not a string. -/
def extractReply (j : Json) : Except PyErr (List Char) := do
  let choices ← getItemStr j "choices".data
  let c0 ← getItemZero choices
  let msg ← getItemStr c0 "message".data
  let content ← getItemStr msg "content".data
  match content with
  | .str s => .ok (pyStrip s)
  | _ => .error .other

/-- Outcome of the single upstream HTTP attempt. -/
inductive UpstreamResult where
  | transportError
  | httpResponse (status : Nat) (body : Option Json)

/-- Response of the endpoint, as seen by the client. -/
inductive Response where
  | ok (reply : List Char)
  | validationError
  | forbidden (detail : List Char)
  | rateLimited
  | upstreamError (detail : List Char)
  | uncaught
deriving DecidableEq

/-- HTTP status of each response class.  The 403 and the three 502
responses carry the statuses the source sets explicitly; the 400 of the
validation failure and the 429 of the rate limiter are the statuses the
spec assigns to the framework-mediated rejections, and uncaught errors
surface as a 500 server error. -/
def statusOf : Response → Nat
  | .ok _ => 200
  | .validationError => 400
  | .forbidden _ => 403
  | .rateLimited => 429
  | .upstreamError _ => 502
  | .uncaught => 500

/-- Embedding of the upstream part of the chat handler: raise_for_status
maps every non-2xx status to the 502 Upstream API error response, a
transport failure maps to the 502 Upstream request failed response, and
the reply extraction maps KeyError and IndexError to the 502 Unexpected
upstream response; a non-JSON body or any other extraction error is an
uncaught exception. -/
def upstreamPhase : UpstreamResult → Response
  | .transportError => .upstreamError "Upstream request failed".data
  | .httpResponse s body =>
    if 200 ≤ s ∧ s < 300 then
      match body with
      | none => .uncaught
      | some j =>
        match extractReply j with
        | .ok reply => .ok reply
        | .error .keyIdx => .upstreamError "Unexpected upstream response".data
        | .error .other => .uncaught
    else .upstreamError "Upstream API error".data

/-- Configured service state: the shared secret and the cached system
prompt (the fixed template around the startup grounding context). -/
structure Config where
  apiKey : List Char
  systemPrompt : List Char

/-- An inbound request: the client network address the limiter keys on,
the arrival time in seconds, the credential header when present, the raw
message text, and the behaviour of the upstream on this request. -/
structure ChatRequestIn where
  client : Nat
  time : Nat
  header : Option (List Char)
  message : List Char
  upstream : UpstreamResult

/-- The chat-completion request the handler sends upstream. -/
structure UpstreamCall where
  systemContent : List Char
  userContent : List Char
  model : List Char
  maxTokens : Nat
deriving DecidableEq

/-- Embedding of the dependency verify_api_key: exact match against the
configured secret; an absent header is rejected. -/
def verify_api_key (apiKey : List Char) (h : Option (List Char)) : Bool :=
  match h with
  | none => false
  | some k => k == apiKey

/-- Embedding of ChatRequest.validate_message: strip surrounding
whitespace, reject the empty result, reject more than 1000 characters,
and return the stripped text. -/
def validate_message (v : List Char) : Except (List Char) (List Char) :=
  let v := pyStrip v
  if v = [] then .error "message must not be empty".data
  else if 1000 < v.length then .error "message must not exceed 1000 characters".data
  else .ok v

/-- Fixed-window count: recorded hits of this client in this window. -/
def countHits (hits : List (Nat × Nat)) (c w : Nat) : Nat :=
  (hits.filter (fun p => p.1 == c && p.2 == w)).length

/-- One request through the endpoint: credential check, body validation,
rate limit, then the upstream call.  Returns the limiter state after the
request, the upstream call made (none when no call reaches the upstream)
and the response. -/
def chat (cfg : Config) (hits : List (Nat × Nat)) (r : ChatRequestIn) :
    List (Nat × Nat) × Option UpstreamCall × Response :=
  if verify_api_key cfg.apiKey r.header then
    match validate_message r.message with
    | .error _ => (hits, none, .validationError)
    | .ok m =>
      let w := r.time / 60
      let n := countHits hits r.client w
      let hits2 := (r.client, w) :: hits
      if 20 ≤ n then (hits2, none, .rateLimited)
      else
        (hits2,
         some { systemContent := cfg.systemPrompt, userContent := m,
                model := "meta-llama/Llama-3.1-8B-Instruct:cerebras".data,
                maxTokens := 512 },
         upstreamPhase r.upstream)
  else (hits, none, .forbidden "Could not validate credentials".data)

/-- Sequential processing of a request list, threading limiter state. -/
def processAll (cfg : Config) (hits : List (Nat × Nat)) : List ChatRequestIn → List Response
  | [] => []
  | r :: rs => (chat cfg hits r).2.2 :: processAll cfg (chat cfg hits r).1 rs

theorem chat_not_verified {cfg : Config} {hits : List (Nat × Nat)} {r : ChatRequestIn}
    (h : verify_api_key cfg.apiKey r.header = false) :
    chat cfg hits r = (hits, none, .forbidden "Could not validate credentials".data) := by
  simp [chat, h]

theorem chat_invalid {cfg : Config} {hits : List (Nat × Nat)} {r : ChatRequestIn}
    {e : List Char} (hv : verify_api_key cfg.apiKey r.header = true)
    (he : validate_message r.message = .error e) :
    chat cfg hits r = (hits, none, .validationError) := by
  simp [chat, hv, he]

theorem chat_limited {cfg : Config} {hits : List (Nat × Nat)} {r : ChatRequestIn}
    {m : List Char} (hv : verify_api_key cfg.apiKey r.header = true)
    (hm : validate_message r.message = .ok m)
    (hn : 20 ≤ countHits hits r.client (r.time / 60)) :
    chat cfg hits r = ((r.client, r.time / 60) :: hits, none, .rateLimited) := by
  simp [chat, hv, hm, hn]

theorem chat_pass {cfg : Config} {hits : List (Nat × Nat)} {r : ChatRequestIn}
    {m : List Char} (hv : verify_api_key cfg.apiKey r.header = true)
    (hm : validate_message r.message = .ok m)
    (hn : countHits hits r.client (r.time / 60) < 20) :
    chat cfg hits r = ((r.client, r.time / 60) :: hits,
      some { systemContent := cfg.systemPrompt, userContent := m,
             model := "meta-llama/Llama-3.1-8B-Instruct:cerebras".data,
             maxTokens := 512 },
      upstreamPhase r.upstream) := by
  simp [chat, hv, hm, Nat.not_le.mpr hn]

theorem validate_message_ok {v m : List Char} (h : validate_message v = .ok m) :
    m = pyStrip v := by
  unfold validate_message at h
  by_cases h1 : pyStrip v = []
  · simp [h1] at h
  · by_cases h2 : 1000 < (pyStrip v).length
    · simp [h1, h2] at h
    · simp [h1, h2] at h
      exact h.symm

theorem validate_message_error_iff {v : List Char} :
    (∃ e, validate_message v = .error e) ↔
      (pyStrip v = [] ∨ 1000 < (pyStrip v).length) := by
  unfold validate_message
  by_cases h1 : pyStrip v = []
  · simp [h1]
  · by_cases h2 : 1000 < (pyStrip v).length
    · simp [h1, h2]
    · simp [h1, h2]

theorem validate_message_isOk_iff {v : List Char} :
    (validate_message v).isOk = true ↔
      (pyStrip v ≠ [] ∧ (pyStrip v).length ≤ 1000) := by
  unfold validate_message
  by_cases h1 : pyStrip v = []
  · simp [h1, Except.isOk, Except.toBool]
  · by_cases h2 : 1000 < (pyStrip v).length
    · simp only [h1, h2, if_neg, if_pos, ite_false, ite_true]
      simp [Except.isOk, Except.toBool, h1]
      omega
    · simp only [h1, h2, if_neg, if_pos, ite_false, ite_true]
      simp [Except.isOk, Except.toBool, h1]
      omega

theorem upstreamPhase_ne_validationError (u : UpstreamResult) :
    upstreamPhase u ≠ .validationError := by
  cases u with
  | transportError => simp [upstreamPhase]
  | httpResponse s body =>
    simp only [upstreamPhase]
    split
    · cases body with
      | none => simp
      | some j =>
        cases hx : extractReply j with
        | ok rep => simp [hx]
        | error e => cases e <;> simp [hx]
    · simp

theorem countHits_cons_same (hits : List (Nat × Nat)) (c w : Nat) :
    countHits ((c, w) :: hits) c w = countHits hits c w + 1 := by
  simp [countHits, List.filter_cons]

/-- The payload shapes the spec names as unexpected: missing choices,
empty choices array, first choice missing the message field, message
missing the content field. -/
def missingShape : Json → Bool
  | .obj fs =>
    match jsonLookup "choices".data fs with
    | none => true
    | some (.arr []) => true
    | some (.arr (x :: _)) =>
      match x with
      | .obj gs =>
        match jsonLookup "message".data gs with
        | none => true
        | some (.obj hs) => (jsonLookup "content".data hs).isNone
        | some _ => false
      | _ => false
    | some _ => false
  | _ => false

/-- On each of the named shapes, the extraction raises KeyError or
IndexError, the two error types the handler catches. -/
theorem extractReply_missingShape : ∀ {j : Json}, missingShape j = true →
    extractReply j = .error .keyIdx := by
  intro j h
  cases j with
  | null => simp [missingShape] at h
  | bool b => simp [missingShape] at h
  | num n => simp [missingShape] at h
  | str s => simp [missingShape] at h
  | arr items => simp [missingShape] at h
  | obj fs =>
    simp only [missingShape] at h
    cases hc : jsonLookup "choices".data fs with
    | none => simp [extractReply, getItemStr, hc, Bind.bind, Except.bind]
    | some v =>
      rw [hc] at h
      cases v with
      | null => simp at h
      | bool b => simp at h
      | num n => simp at h
      | str s => simp at h
      | obj gs => simp at h
      | arr items =>
        cases items with
        | nil =>
          simp [extractReply, getItemStr, getItemZero, hc, Bind.bind, Except.bind]
        | cons x rest =>
          cases x with
          | null => simp at h
          | bool b => simp at h
          | num n => simp at h
          | str s => simp at h
          | arr ys => simp at h
          | obj gs =>
            simp only [] at h
            cases hm : jsonLookup "message".data gs with
            | none =>
              simp [extractReply, getItemStr, getItemZero, hc, hm, Bind.bind, Except.bind]
            | some mv =>
              rw [hm] at h
              cases mv with
              | null => simp at h
              | bool b => simp at h
              | num n => simp at h
              | str s => simp at h
              | arr ys => simp at h
              | obj hs =>
                cases hcon : jsonLookup "content".data hs with
                | none =>
                  simp [extractReply, getItemStr, getItemZero, hc, hm, hcon,
                    Bind.bind, Except.bind]
                | some cv =>
                  simp [hcon] at h

theorem buildContextLines_single {p : Project} {ls : List (List Char)}
    (h : projectLines p = .ok ls) : build_context [p] = .ok (pyJoin ['\n'] ls) := by
  unfold build_context
  have hb : buildContextLines [p] = .ok ls := by
    simp [buildContextLines, h, Bind.bind, Except.bind]
  rw [hb]
  rfl

theorem projectLines_simple (n s : List Char) :
    projectLines { name := n, slug := s, stack := [], projectUrls := [], content := [] } =
      .ok ["Project: ".data ++ n, "Slug: ".data ++ s, "Description: ".data, "---".data] := by
  unfold projectLines
  simp [urlLinesAll, stackLines, projectLine, slugLine, descriptionLine, Bind.bind,
    Except.bind, strip_html_nil]

/-- Claim C1: for every request whose credential header is absent or does
not equal the configured secret, no chat-completion call is made upstream,
whatever the message body holds. -/
theorem c1_no_upstream_call_without_credential (cfg : Config) (hits : List (Nat × Nat))
    (r : ChatRequestIn) (h : verify_api_key cfg.apiKey r.header = false) :
    (chat cfg hits r).2.1 = none := by
  rw [chat_not_verified h]

/-- Witness for C1 at a concrete absent header and a concrete wrong header. -/
theorem c1_witness :
    verify_api_key "secret".data none = false ∧
    verify_api_key "secret".data (some "wrong".data) = false ∧
    (chat { apiKey := "secret".data, systemPrompt := [] } []
      { client := 0, time := 0, header := none, message := "hi".data,
        upstream := UpstreamResult.transportError }).2.1 = none ∧
    (chat { apiKey := "secret".data, systemPrompt := [] } []
      { client := 0, time := 0, header := some "wrong".data, message := "hi".data,
        upstream := UpstreamResult.transportError }).2.1 = none :=
  ⟨by decide, by decide,
   c1_no_upstream_call_without_credential _ _ _ (by decide),
   c1_no_upstream_call_without_credential _ _ _ (by decide)⟩

/-- Claim C4: a request with an absent or mismatched credential header gets
the 403 forbidden response carrying only the fixed generic denial text,
identical in the absent and in the mismatched case. -/
theorem c4_forbidden_on_bad_credential (cfg : Config) (hits : List (Nat × Nat))
    (r : ChatRequestIn) (h : verify_api_key cfg.apiKey r.header = false) :
    (chat cfg hits r).2.2 = .forbidden "Could not validate credentials".data ∧
    statusOf (chat cfg hits r).2.2 = 403 := by
  rw [chat_not_verified h]
  exact ⟨rfl, rfl⟩

/-- Witness for C4 at a concrete absent header and a concrete wrong header. -/
theorem c4_witness :
    verify_api_key "secret".data none = false ∧
    verify_api_key "secret".data (some "wrong".data) = false ∧
    (chat { apiKey := "secret".data, systemPrompt := [] } []
      { client := 0, time := 0, header := none, message := "hi".data,
        upstream := UpstreamResult.transportError }).2.2 =
      .forbidden "Could not validate credentials".data ∧
    (chat { apiKey := "secret".data, systemPrompt := [] } []
      { client := 0, time := 0, header := some "wrong".data, message := "hi".data,
        upstream := UpstreamResult.transportError }).2.2 =
      .forbidden "Could not validate credentials".data :=
  ⟨by decide, by decide,
   (c4_forbidden_on_bad_credential _ _ _ (by decide)).1,
   (c4_forbidden_on_bad_credential _ _ _ (by decide)).1⟩

/-- Claim C3: for a request that passes the credential check and the rate
limit, the endpoint responds with the 400 validation failure exactly when
the whitespace-trimmed message is empty or longer than 1000 characters,
and otherwise the message is accepted and an upstream call is made. -/
theorem c3_validation_iff (cfg : Config) (hits : List (Nat × Nat)) (r : ChatRequestIn)
    (hv : verify_api_key cfg.apiKey r.header = true)
    (hn : countHits hits r.client (r.time / 60) < 20) :
    ((chat cfg hits r).2.2 = .validationError ↔
      (pyStrip r.message = [] ∨ 1000 < (pyStrip r.message).length)) ∧
    statusOf Response.validationError = 400 ∧
    ((pyStrip r.message ≠ [] ∧ (pyStrip r.message).length ≤ 1000) →
      (chat cfg hits r).2.1.isSome = true) := by
  by_cases hcond : pyStrip r.message = [] ∨ 1000 < (pyStrip r.message).length
  · obtain ⟨e, he⟩ := validate_message_error_iff.mpr hcond
    rw [chat_invalid hv he]
    refine ⟨⟨fun _ => hcond, fun _ => rfl⟩, rfl, ?_⟩
    intro hacc
    rcases hcond with hcond | hcond
    · exact absurd hcond hacc.1
    · exact absurd hcond (Nat.not_lt.mpr hacc.2)
  · have hok : (validate_message r.message).isOk = true := by
      rw [validate_message_isOk_iff]
      push_neg at hcond
      exact ⟨hcond.1, hcond.2⟩
    have hm : ∃ m, validate_message r.message = .ok m := by
      cases hvm : validate_message r.message with
      | error e => rw [hvm] at hok; simp [Except.isOk, Except.toBool] at hok
      | ok m => exact ⟨m, rfl⟩
    obtain ⟨m, hm⟩ := hm
    rw [chat_pass hv hm hn]
    refine ⟨⟨fun hcontra => ?_, fun hcond2 => absurd hcond2 hcond⟩, rfl, fun _ => rfl⟩
    exact absurd hcontra (upstreamPhase_ne_validationError _)

/-- Witness for C3 at a concrete whitespace-only message. -/
theorem c3_witness :
    verify_api_key "secret".data (some "secret".data) = true ∧
    countHits [] 0 (0 / 60) < 20 ∧
    ((chat { apiKey := "secret".data, systemPrompt := [] } []
        { client := 0, time := 0, header := some "secret".data, message := "   ".data,
          upstream := UpstreamResult.transportError }).2.2 = Response.validationError ↔
      (pyStrip "   ".data = [] ∨ 1000 < (pyStrip "   ".data).length)) :=
  ⟨by decide, by decide, (c3_validation_iff _ _ _ (by decide) (by decide)).1⟩

/-- Claim C10: for every accepted request the user message sent upstream is
the whitespace-trimmed form of the submitted message. -/
theorem c10_forwarded_message_is_trimmed (cfg : Config) (hits : List (Nat × Nat))
    (r : ChatRequestIn) (m : List Char)
    (hv : verify_api_key cfg.apiKey r.header = true)
    (hm : validate_message r.message = .ok m)
    (hn : countHits hits r.client (r.time / 60) < 20) :
    (chat cfg hits r).2.1 =
      some { systemContent := cfg.systemPrompt, userContent := pyStrip r.message,
             model := "meta-llama/Llama-3.1-8B-Instruct:cerebras".data, maxTokens := 512 } := by
  rw [chat_pass hv hm hn, validate_message_ok hm]

/-- Witness for C10 at a concrete padded message. -/
theorem c10_witness :
    validate_message "  hi  ".data = Except.ok "hi".data ∧
    (chat { apiKey := "secret".data, systemPrompt := "sys".data } []
      { client := 0, time := 0, header := some "secret".data, message := "  hi  ".data,
        upstream := UpstreamResult.transportError }).2.1 =
      some { systemContent := "sys".data, userContent := pyStrip "  hi  ".data,
             model := "meta-llama/Llama-3.1-8B-Instruct:cerebras".data, maxTokens := 512 } :=
  ⟨by rfl,
   c10_forwarded_message_is_trimmed _ _ _ "hi".data (by decide) (by rfl) (by decide)⟩

/-- Counterexample to claim C2 as stated: 21 requests from one client
inside a single minute, all carrying a wrong credential, all receive the
403 forbidden response; none receives the 429 rate-limit response, because
a request rejected by the credential check never reaches the limiter. -/
def wrongCredReq : ChatRequestIn :=
  { client := 0, time := 0, header := some "wrong".data, message := "hi".data,
    upstream := UpstreamResult.transportError }

def goodReq : ChatRequestIn :=
  { client := 0, time := 0, header := some "secret".data, message := "hi".data,
    upstream := UpstreamResult.transportError }

def serviceCfg : Config := { apiKey := "secret".data, systemPrompt := [] }

theorem c2_counterexample :
    (List.replicate 21 wrongCredReq).length = 21 ∧
    (∀ r ∈ List.replicate 21 wrongCredReq, r.client = 0 ∧ r.time = 0) ∧
    Response.rateLimited ∉
      processAll serviceCfg [] (List.replicate 21 wrongCredReq) ∧
    statusOf Response.rateLimited = 429 := by
  refine ⟨rfl, by decide, ?_, rfl⟩
  decide

/-- Claim C2 (amended): among requests of one client that pass the
credential and message validation checks and whose times fall in the same
fixed one-minute window of the limiter, if the prior recorded hits do not
already exceed the threshold and the total reaches 21, then at least one
request receives the rate-limited 429 response. -/
theorem c2_rate_limited_within_fixed_window : ∀ (reqs : List ChatRequestIn) (cfg : Config)
    (hits : List (Nat × Nat)) (c w : Nat),
    (∀ r ∈ reqs, verify_api_key cfg.apiKey r.header = true ∧
      (validate_message r.message).isOk = true ∧ r.client = c ∧ r.time / 60 = w) →
    countHits hits c w ≤ 20 → 21 ≤ countHits hits c w + reqs.length →
    Response.rateLimited ∈ processAll cfg hits reqs := by
  intro reqs
  induction reqs with
  | nil =>
    intro cfg hits c w _ hle h21
    simp at h21
    omega
  | cons r rs ih =>
    intro cfg hits c w hgood hle h21
    obtain ⟨hv, hok, hc, hw⟩ := hgood r (List.mem_cons_self _ _)
    subst hc
    subst hw
    have hm : ∃ m, validate_message r.message = .ok m := by
      cases hvm : validate_message r.message with
      | error e => rw [hvm] at hok; simp [Except.isOk, Except.toBool] at hok
      | ok m => exact ⟨m, rfl⟩
    obtain ⟨m, hm⟩ := hm
    by_cases hlim : 20 ≤ countHits hits r.client (r.time / 60)
    · rw [show processAll cfg hits (r :: rs) =
        (chat cfg hits r).2.2 :: processAll cfg (chat cfg hits r).1 rs from rfl,
        chat_limited hv hm hlim]
      exact List.mem_cons_self _ _
    · push_neg at hlim
      rw [show processAll cfg hits (r :: rs) =
        (chat cfg hits r).2.2 :: processAll cfg (chat cfg hits r).1 rs from rfl,
        chat_pass hv hm hlim]
      refine List.mem_cons_of_mem _ ?_
      have hcount := countHits_cons_same hits r.client (r.time / 60)
      refine ih cfg _ r.client (r.time / 60)
        (fun x hx => hgood x (List.mem_cons_of_mem _ hx)) ?_ ?_
      · rw [hcount]; omega
      · rw [hcount]
        simp only [List.length_cons] at h21
        omega

/-- Witness for the amended C2: a fresh limiter, 21 valid same-client
requests inside one minute, at least one response is the 429. -/
theorem c2_witness :
    (∀ r ∈ List.replicate 21 goodReq,
      verify_api_key serviceCfg.apiKey r.header = true ∧
      (validate_message r.message).isOk = true ∧ r.client = 0 ∧ r.time / 60 = 0) ∧
    countHits [] 0 0 ≤ 20 ∧
    21 ≤ countHits [] 0 0 + (List.replicate 21 goodReq).length ∧
    Response.rateLimited ∈ processAll serviceCfg [] (List.replicate 21 goodReq) :=
  ⟨by decide, by decide, by decide,
   c2_rate_limited_within_fixed_window _ _ _ 0 0 (by decide) (by decide) (by decide)⟩

/-- Claim C5: every non-success upstream HTTP status is mapped to the 502
response with the fixed generic text, independent of the upstream body,
and every transport-level failure is mapped to the same 502 class. -/
theorem c5_upstream_failures_map_to_502 :
    (∀ (s : Nat) (body : Option Json), ¬(200 ≤ s ∧ s < 300) →
      upstreamPhase (UpstreamResult.httpResponse s body) =
          Response.upstreamError "Upstream API error".data ∧
        statusOf (upstreamPhase (UpstreamResult.httpResponse s body)) = 502) ∧
    upstreamPhase UpstreamResult.transportError =
        Response.upstreamError "Upstream request failed".data ∧
      statusOf (upstreamPhase UpstreamResult.transportError) = 502 := by
  refine ⟨?_, rfl, rfl⟩
  intro s body hs
  have h : upstreamPhase (UpstreamResult.httpResponse s body) =
      Response.upstreamError "Upstream API error".data := by
    simp only [upstreamPhase, if_neg hs]
  exact ⟨h, by rw [h]; rfl⟩

/-- Witness for C5 at a concrete 500 status with a body that never shows
up in the response. -/
theorem c5_witness :
    upstreamPhase (UpstreamResult.httpResponse 500
        (some (Json.str "raw upstream failure detail".data))) =
      Response.upstreamError "Upstream API error".data ∧
    statusOf (upstreamPhase (UpstreamResult.httpResponse 500
        (some (Json.str "raw upstream failure detail".data)))) = 502 :=
  c5_upstream_failures_map_to_502.1 500
    (some (Json.str "raw upstream failure detail".data)) (by decide)

/-- Claim C6: a success status whose payload misses the choices field, has
an empty choices array, or misses the message or content field, is mapped
to the uniform 502 upstream-error response. -/
theorem c6_unexpected_payload_shape_502 (s : Nat) (j : Json)
    (hs : 200 ≤ s ∧ s < 300) (hshape : missingShape j = true) :
    upstreamPhase (UpstreamResult.httpResponse s (some j)) =
      Response.upstreamError "Unexpected upstream response".data ∧
    statusOf (upstreamPhase (UpstreamResult.httpResponse s (some j))) = 502 := by
  have he := extractReply_missingShape hshape
  have h : upstreamPhase (UpstreamResult.httpResponse s (some j)) =
      Response.upstreamError "Unexpected upstream response".data := by
    simp only [upstreamPhase, if_pos hs, he]
  exact ⟨h, by rw [h]; rfl⟩

/-- Witness for C6 at a 200 status with a payload missing choices. -/
theorem c6_witness :
    upstreamPhase (UpstreamResult.httpResponse 200 (some (Json.obj []))) =
      Response.upstreamError "Unexpected upstream response".data ∧
    statusOf (upstreamPhase (UpstreamResult.httpResponse 200 (some (Json.obj [])))) = 502 :=
  c6_unexpected_payload_shape_502 200 (Json.obj []) (by decide) (by decide)

/-- Counterexample to claim C7 as stated: one project whose name embeds a
newline followed by the text Project: B makes the output contain two
Project: lines for a single input project. -/
def pBadName : Project :=
  { name := "A\nProject: B".data, slug := "s".data, stack := [], projectUrls := [],
    content := [] }

theorem c7_counterexample :
    (build_context [pBadName]).map
        (fun out => ((splitNl out).filter isProjLine).length) = Except.ok 2 ∧
    ([pBadName] : List Project).length = 1 := by
  refine ⟨?_, rfl⟩
  unfold pBadName
  rw [buildContextLines_single (projectLines_simple "A\nProject: B".data "s".data)]
  rfl

/-- Claim C7 (amended): for every dataset that builds successfully and
whose field texts contain no newline character, the output string contains
exactly one Project: line per input project, and these lines appear in the
input order, each carrying the name of its project. -/
theorem c7_one_project_line_per_project (ps : List Project) (out : List Char)
    (hok : build_context ps = .ok out)
    (hnl : ∀ p ∈ ps, projectNoNlB p = true) :
    (splitNl out).filter isProjLine = ps.map (fun p => "Project: ".data ++ p.name) := by
  cases hls : buildContextLines ps with
  | error e =>
    rw [build_context, hls] at hok
    cases hok
  | ok ls =>
    have hout : out = pyJoin ['\n'] ls := by
      rw [build_context, hls] at hok
      exact (Except.ok.inj hok).symm
    subst hout
    cases ps with
    | nil =>
      have hnil : ls = [] := (Except.ok.inj hls).symm
      subst hnil
      rfl
    | cons p ps2 =>
      have hne := buildContextLines_ne_nil hls
      have hnll := buildContextLines_no_nl hls hnl
      rw [splitNl_pyJoin hne hnll, buildContextLines_filter hls]
      rfl

/-- Witness for the amended C7 at a concrete one-project dataset. -/
def pFoo : Project :=
  { name := "Foo".data, slug := "foo".data, stack := [], projectUrls := [],
    content := [] }

theorem c7_witness :
    (splitNl "Project: Foo\nSlug: foo\nDescription: \n---".data).filter isProjLine =
      [pFoo].map (fun p => "Project: ".data ++ p.name) := by
  refine c7_one_project_line_per_project _ _ ?_ ?_
  · unfold pFoo
    rw [buildContextLines_single (projectLines_simple "Foo".data "foo".data)]
    rfl
  · decide

/-- Claim C9 (amended): in a projectUrls group, entries that are not lists
are skipped silently, an entry that is a list with at least two elements
always yields a URL line built from its first two elements, and an entry
that is a list with fewer than two elements makes the builder fail. -/
theorem c9_url_lines_characterization (g : List UrlItem) :
    urlLinesGroup g =
      if g.any shortList then Except.error () else Except.ok (g.filterMap urlLineOpt) :=
  urlLinesGroup_eq g

/-- Counterexample to claim C9 as stated: a malformed entry that is a list
with a single element is not skipped silently; it makes build_context fail. -/
def pShortUrl : Project :=
  { name := "N".data, slug := "s".data, stack := [],
    projectUrls := [[UrlItem.lst ["only".data]]], content := [] }

theorem c9_counterexample :
    build_context [pShortUrl] = Except.error () := rfl
